import Mathlib

/-!
# QMuPDF page adapter (`page.cpp`, `page.hpp`)

A shallow embedding of the `QMuPDF::Page` / `QMuPDF::TextBox` adapter.

* `qreal` / `float` values are exact rationals (`ℚ`).
* The MuPDF functions the adapter calls (`fz_bound_page`, `fz_run_page`, ...) are not part of
  the adapter; they are the fields of the structure `Fitz`, and every definition that calls
  into the library takes a `Fitz` as a parameter.
* `QVector<TextBox *>` is a `List TextBox`; the linked list of spans of a line is a `List`.
-/

namespace QMuPDF

/-! ## Qt and MuPDF value types -/

/-- The MuPDF rectangle `fz_rect`, in points (72 per inch). -/
structure fz_rect where
  x0 : ℚ
  y0 : ℚ
  x1 : ℚ
  y1 : ℚ
deriving DecidableEq

/-- The Qt size `QSizeF`. -/
structure QSizeF where
  width : ℚ
  height : ℚ
deriving DecidableEq

/-- The Qt point `QPointF`. -/
structure QPointF where
  x : ℚ
  y : ℚ
deriving DecidableEq

/-- The operator `QPointF * qreal`: both coordinates are multiplied by the factor. -/
def QPointF.mul (p : QPointF) (c : ℚ) : QPointF := ⟨p.x * c, p.y * c⟩

/-- The operator `QPointF / qreal`: both coordinates are divided by the divisor. -/
def QPointF.div (p : QPointF) (c : ℚ) : QPointF := ⟨p.x / c, p.y / c⟩

/-- The Qt rectangle `QRectF`, stored as its top-left corner and its extent. -/
structure QRectF where
  xp : ℚ
  yp : ℚ
  w : ℚ
  h : ℚ
deriving DecidableEq

/-- The constructor `QRectF(const QPointF &topLeft, const QPointF &bottomRight)`. -/
def QRectF.ofPoints (topLeft bottomRight : QPointF) : QRectF :=
  ⟨topLeft.x, topLeft.y, bottomRight.x - topLeft.x, bottomRight.y - topLeft.y⟩

/-- The accessor `QRectF::left()`. -/
def QRectF.left (r : QRectF) : ℚ := r.xp

/-- The accessor `QRectF::top()`. -/
def QRectF.top (r : QRectF) : ℚ := r.yp

/-- The accessor `QRectF::right()`. -/
def QRectF.right (r : QRectF) : ℚ := r.xp + r.w

/-- The accessor `QRectF::bottom()`. -/
def QRectF.bottom (r : QRectF) : ℚ := r.yp + r.h

/-- The accessor `QRectF::width()`. -/
def QRectF.width (r : QRectF) : ℚ := r.w

/-- The accessor `QRectF::height()`. -/
def QRectF.height (r : QRectF) : ℚ := r.h

/-- The Qt character `QChar`: one 16-bit code unit. -/
structure QChar where
  ucs : Nat
deriving DecidableEq

/-- The constructor `QChar(int rc)`, which keeps `ushort(rc & 0xffff)`. -/
def QChar.ofInt (rc : Int) : QChar := ⟨(rc % 65536).toNat⟩

/-- The accessor `QChar::unicode()`: the numeric value of the character. -/
def QChar.unicode (c : QChar) : Nat := c.ucs

/-! ## `convert_fz_rect` -/

/-- The function `convert_fz_rect` of `page.cpp`. -/
def convert_fz_rect (rect : fz_rect) (dpi : QSizeF) : QRectF :=
  QRectF.ofPoints
    (((QPointF.mk rect.x0 rect.y0).mul dpi.width).div 72)
    (((QPointF.mk rect.x1 rect.y1).mul dpi.height).div 72)

/-! ## `TextBox` -/

/-- The class `TextBox` of `page.hpp`: its three private members. -/
structure TextBox where
  m_text : QChar
  m_rect : QRectF
  m_end : Bool
deriving DecidableEq

/-- The constructor `TextBox(QChar c, const QRectF &bbox)`; the flag starts cleared. -/
def TextBox.new (c : QChar) (bbox : QRectF) : TextBox := ⟨c, bbox, false⟩

/-- The member `TextBox::rect() const`. -/
def TextBox.rect (b : TextBox) : QRectF := b.m_rect

/-- The member `TextBox::text() const`. -/
def TextBox.text (b : TextBox) : QChar := b.m_text

/-- The member `TextBox::isAtEndOfLine() const`. -/
def TextBox.isAtEndOfLine (b : TextBox) : Bool := b.m_end

/-- The member `TextBox::markAtEndOfLine()`: the state of the object after the call. -/
def TextBox.markAtEndOfLine (b : TextBox) : TextBox := { b with m_end := true }

/-- The operations of the public interface of `TextBox` that act on a constructed object. -/
inductive TextBoxOp where
  | rect
  | text
  | isAtEndOfLine
  | markAtEndOfLine
deriving DecidableEq

/-- The state of a `TextBox` after one call of a public member: the three `const` members
leave the object as it is, `markAtEndOfLine` assigns `m_end`. -/
def TextBoxOp.apply : TextBoxOp → TextBox → TextBox
  | .rect, b => b
  | .text, b => b
  | .isAtEndOfLine, b => b
  | .markAtEndOfLine, b => b.markAtEndOfLine

/-! ## Library handles and the library interface -/

/-- The handle `fz_context *`. -/
abbrev fz_context := Nat

/-- The handle `fz_document *`. -/
abbrev fz_document := Nat

/-- The handle `fz_page *`. -/
abbrev fz_page := Nat

/-- The handle `fz_colorspace *`. -/
abbrev fz_colorspace := Nat

/-- The MuPDF matrix `fz_matrix`. -/
structure fz_matrix where
  a : ℚ
  b : ℚ
  c : ℚ
  d : ℚ
  e : ℚ
  f : ℚ
deriving DecidableEq

/-- The constant `fz_identity`. -/
def fz_identity : fz_matrix := ⟨1, 0, 0, 1, 0, 0⟩

/-- The MuPDF pixmap as the adapter sees it through `fz_pixmap_width`, `fz_pixmap_height`
and `fz_pixmap_samples`: dimensions and the buffer of `unsigned char` samples. -/
structure fz_pixmap where
  w : Nat
  h : Nat
  samples : List Nat
deriving DecidableEq

/-- One character of a span, `fz_stext_char`: the member `c` read by the adapter. -/
structure fz_stext_char where
  c : Int
deriving DecidableEq

/-- A span `fz_stext_span`: the array `text` (its length is the member `len`) and the
span's own bounding box. The `next` link is the tail of the list of spans of the line. -/
structure fz_stext_span where
  text : List fz_stext_char
  bbox : fz_rect
deriving DecidableEq

/-- The member `len` of a span. -/
def fz_stext_span.len (s : fz_stext_span) : Nat := s.text.length

/-- A line `fz_stext_line`: the linked list of spans starting at `first_span`. -/
structure fz_stext_line where
  spans : List fz_stext_span
deriving DecidableEq

/-- A text block `fz_stext_block`: the array `lines` (its length is the member `len`). -/
structure fz_stext_block where
  lines : List fz_stext_line
deriving DecidableEq

/-- A page block `fz_page_block`: tagged `FZ_PAGE_BLOCK_TEXT` with a text block in `u.text`,
or tagged `FZ_PAGE_BLOCK_IMAGE`. -/
inductive fz_page_block where
  | text (block : fz_stext_block)
  | image
deriving DecidableEq

/-- The structured text page `fz_stext_page`: the array `blocks` (its length is `len`). -/
structure fz_stext_page where
  blocks : List fz_page_block
deriving DecidableEq

/-- The MuPDF entry points used by the adapter. `fz_run_page` on a draw device returns the
drawn pixmap and the value left in `cookie.errors`; on a structured-text device it returns
the filled text page and the value left in `cookie.errors`. -/
structure Fitz where
  fz_load_page : fz_context → fz_document → Int → fz_page
  fz_bound_page : fz_context → fz_page → fz_rect
  fz_scale : ℚ → ℚ → fz_matrix
  fz_device_rgb : fz_context → fz_colorspace
  fz_new_pixmap : fz_context → fz_colorspace → Int → Int → fz_pixmap
  fz_clear_pixmap_with_value : fz_context → fz_pixmap → Int → fz_pixmap
  fz_run_page_draw : fz_context → fz_page → fz_pixmap → fz_matrix → fz_pixmap × Int
  fz_run_page_stext : fz_context → fz_page → fz_matrix → fz_stext_page × Int
  fz_stext_char_bbox : fz_context → fz_stext_span → Nat → fz_rect

/-! ## `convert_fz_pixmap` -/

/-- The Qt image `QImage` in format `Format_ARGB32`: dimensions and the buffer returned by
`bits()`, one `unsigned int` per pixel, rows one after the other. -/
structure QImage where
  width : Nat
  height : Nat
  bits : List Nat
deriving DecidableEq

/-- The default-constructed `QImage()`: the null image. -/
def QImage.null : QImage := ⟨0, 0, []⟩

/-- The constructor `QImage(w, h, QImage::Format_ARGB32)`: the null image when a dimension
is 0, else a `w`-by-`h` image with a buffer of `w * h` pixels. -/
def QImage.create (w h : Nat) : QImage :=
  if w = 0 ∨ h = 0 then QImage.null else ⟨w, h, List.replicate (w * h) 0⟩

/-- The Qt function `qRgba(r, g, b, a)`. -/
def qRgba (r g b a : Nat) : Nat :=
  ((a &&& 0xff) <<< 24) ||| ((r &&& 0xff) <<< 16) ||| ((g &&& 0xff) <<< 8) ||| (b &&& 0xff)

/-- The locals of `convert_fz_pixmap` while its loops run: the offsets of the two moving
pointers `data` (into the samples) and `imgdata` (into the image buffer), the image buffer,
and the log of the sample offsets read so far. -/
structure PixLoop where
  data : Nat
  imgdata : Nat
  bits : List Nat
  reads : List Nat
deriving DecidableEq

/-- The body of the inner loop of `convert_fz_pixmap`. -/
def pixelBody (samples : List Nat) (st : PixLoop) : PixLoop :=
  { data := st.data + 4
    imgdata := st.imgdata + 1
    bits := st.bits.set st.imgdata
      (qRgba (samples.getD st.data 0) (samples.getD (st.data + 1) 0)
        (samples.getD (st.data + 2) 0) (samples.getD (st.data + 3) 0))
    reads := st.reads ++ [st.data, st.data + 1, st.data + 2, st.data + 3] }

/-- The inner loop `for (int j = 0; j < w; ++j)`, by the number of iterations left. -/
def rowLoop (samples : List Nat) : Nat → PixLoop → PixLoop
  | 0, st => st
  | n + 1, st => rowLoop samples n (pixelBody samples st)

/-- The outer loop `for (int i = 0; i < h; ++i)`, by the number of iterations left. -/
def imageLoop (samples : List Nat) (w : Nat) : Nat → PixLoop → PixLoop
  | 0, st => st
  | n + 1, st => imageLoop samples w n (rowLoop samples w st)

/-- The state of the locals of `convert_fz_pixmap` when its loops have finished. -/
def convert_fz_pixmap_run (image : fz_pixmap) : PixLoop :=
  imageLoop image.samples image.w image.h
    ⟨0, 0, (QImage.create image.w image.h).bits, []⟩

/-- The function `convert_fz_pixmap` of `page.cpp`, with the log of the samples it read:
the image `img` constructed by `QImage img(w, h, QImage::Format_ARGB32)` with the buffer as
the loops leave it. -/
def convert_fz_pixmap (image : fz_pixmap) : QImage × List Nat :=
  let img := QImage.create image.w image.h
  let st := convert_fz_pixmap_run image
  (⟨img.width, img.height, st.bits⟩, st.reads)

/-! ## `Page` -/

/-- The shared block `Page::Data`. -/
structure Page.Data where
  pageNum : Int
  ctx : fz_context
  doc : fz_document
  page : fz_page
deriving DecidableEq

/-- The class `Page`. The `QSharedDataPointer<Data>` is kept by value: no member function
writes to the block after the constructor, so sharing it and copying it give the same
reads. -/
structure Page where
  d : Page.Data
deriving DecidableEq

/-- The member `Page::size`. -/
def Page.size (L : Fitz) (p : Page) (dpi : QSizeF) : QSizeF :=
  let rect := L.fz_bound_page p.d.ctx p.d.page
  ⟨(rect.x1 - rect.x0) * dpi.width / 72, (rect.y1 - rect.y0) * dpi.height / 72⟩

/-- The conversion of a `qreal` argument to an `int` parameter: truncation towards zero. -/
def qreal_to_int (q : ℚ) : Int := if 0 ≤ q then ⌊q⌋ else ⌈q⌉

/-- The member `Page::render`, with the log of the pixmap samples that were read. -/
def Page.render (L : Fitz) (p : Page) (width height : ℚ) : QImage × List Nat :=
  let s := p.size L ⟨72, 72⟩
  let ctm := L.fz_scale (width / s.width) (height / s.height)
  let csp := L.fz_device_rgb p.d.ctx
  let image := L.fz_new_pixmap p.d.ctx csp (qreal_to_int width) (qreal_to_int height)
  let image := L.fz_clear_pixmap_with_value p.d.ctx image 0xff
  let ran := L.fz_run_page_draw p.d.ctx p.d.page image ctm
  let image := ran.1
  let cookie_errors := ran.2
  if cookie_errors = 0 then convert_fz_pixmap image else (QImage.null, [])

/-! ## `Page::textBoxes` -/

/-- The call `boxes.back()->markAtEndOfLine()`. `QVector::back()` needs a non-empty
vector; on an empty one there is no result. -/
def markBack : List TextBox → Option (List TextBox)
  | [] => none
  | b :: bs => some ((b :: bs).dropLast ++ [((b :: bs).getLast (by simp)).markAtEndOfLine])

/-- The loop `for (int i_char = 0; i_char < span.len; ++i_char)` over one span, by the
number of iterations left and the current `i_char`; the state is `boxes` and `hasText`. -/
def charLoop (L : Fitz) (ctx : fz_context) (dpi : QSizeF) (s : fz_stext_span) :
    Nat → Nat → List TextBox × Bool → List TextBox × Bool
  | 0, _, st => st
  | n + 1, i_char, st =>
    let bbox := L.fz_stext_char_bbox ctx s i_char
    let text := (s.text.getD i_char ⟨0⟩).c
    let box := TextBox.new (QChar.ofInt text) (convert_fz_rect bbox dpi)
    charLoop L ctx dpi s n (i_char + 1) (st.1 ++ [box], true)

/-- The loop `for (fz_stext_span *s = line.first_span; s; s = s->next)`. -/
def spanLoop (L : Fitz) (ctx : fz_context) (dpi : QSizeF) :
    List fz_stext_span → List TextBox × Bool → List TextBox × Bool
  | [], st => st
  | s :: next, st => spanLoop L ctx dpi next (charLoop L ctx dpi s s.len 0 st)

/-- The body of the loop over the lines of a block. -/
def lineBody (L : Fitz) (ctx : fz_context) (dpi : QSizeF) (line : fz_stext_line)
    (boxes : List TextBox) : Option (List TextBox) :=
  let st := spanLoop L ctx dpi line.spans (boxes, false)
  if st.2 then markBack st.1 else some st.1

/-- The loop `for (int i_line = 0; i_line < block.len; ++i_line)`. -/
def lineLoop (L : Fitz) (ctx : fz_context) (dpi : QSizeF) :
    List fz_stext_line → List TextBox → Option (List TextBox)
  | [], boxes => some boxes
  | line :: rest, boxes =>
    match lineBody L ctx dpi line boxes with
    | none => none
    | some boxes1 => lineLoop L ctx dpi rest boxes1

/-- The loop `for (int i_block = 0; i_block < page->len; ++i_block)`. -/
def blockLoop (L : Fitz) (ctx : fz_context) (dpi : QSizeF) :
    List fz_page_block → List TextBox → Option (List TextBox)
  | [], boxes => some boxes
  | .image :: rest, boxes => blockLoop L ctx dpi rest boxes
  | .text block :: rest, boxes =>
    match lineLoop L ctx dpi block.lines boxes with
    | none => none
    | some boxes1 => blockLoop L ctx dpi rest boxes1

/-- The member `Page::textBoxes`. The result is `none` when the run would call `back()`
on an empty vector. -/
def Page.textBoxes (L : Fitz) (p : Page) (dpi : QSizeF) : Option (List TextBox) :=
  let ran := L.fz_run_page_stext p.d.ctx p.d.page fz_identity
  let page := ran.1
  let cookie_errors := ran.2
  if cookie_errors ≠ 0 then some []
  else blockLoop L p.d.ctx dpi page.blocks []

/-! ## The library runs behind `render` and `textBoxes` -/

/-- The pixmap and the value of `cookie.errors` that the `fz_run_page` call of
`Page::render` leaves, for the arguments `render` passes to the library. -/
def Page.drawRun (L : Fitz) (p : Page) (width height : ℚ) : fz_pixmap × Int :=
  L.fz_run_page_draw p.d.ctx p.d.page
    (L.fz_clear_pixmap_with_value p.d.ctx
      (L.fz_new_pixmap p.d.ctx (L.fz_device_rgb p.d.ctx) (qreal_to_int width)
        (qreal_to_int height)) 0xff)
    (L.fz_scale (width / (p.size L ⟨72, 72⟩).width) (height / (p.size L ⟨72, 72⟩).height))

/-- The text page and the value of `cookie.errors` that the `fz_run_page` call of
`Page::textBoxes` leaves. -/
def Page.stextRun (L : Fitz) (p : Page) : fz_stext_page × Int :=
  L.fz_run_page_stext p.d.ctx p.d.page fz_identity

/-! ## Reading order of a text page -/

/-- The characters of a span by increasing index, each as the span and the index. -/
def spanChars (s : fz_stext_span) : List (fz_stext_span × Nat) :=
  (List.range s.len).map (fun i => (s, i))

/-- The characters of a line: its spans in list order from `first_span`, and within a span
the characters by increasing index. -/
def lineChars (line : fz_stext_line) : List (fz_stext_span × Nat) :=
  line.spans.flatMap spanChars

/-- The lines of a page block by increasing index; a block that is not text has none. -/
def blockLines : fz_page_block → List fz_stext_line
  | .text block => block.lines
  | .image => []

/-- The lines of the text blocks of a page, blocks by increasing index. -/
def pageLines (page : fz_stext_page) : List fz_stext_line :=
  page.blocks.flatMap blockLines

/-- The characters of a page in reading order: blocks, then lines, then spans, then
characters. -/
def pageChars (page : fz_stext_page) : List (fz_stext_span × Nat) :=
  page.blocks.flatMap (fun b => (blockLines b).flatMap (fun l =>
    l.spans.flatMap (fun s => (List.range s.len).map (fun i => (s, i)))))

/-- The library code of a character of the page. -/
def charCode (sc : fz_stext_span × Nat) : Int := (sc.1.text.getD sc.2 ⟨0⟩).c

/-- The bounding box the library reports for a character, converted for `dpi`. -/
def charRect (L : Fitz) (ctx : fz_context) (dpi : QSizeF) (sc : fz_stext_span × Nat) :
    QRectF :=
  convert_fz_rect (L.fz_stext_char_bbox ctx sc.1 sc.2) dpi

/-- The box the loop body constructs for a character: `TextBox(text, convert_fz_rect(bbox,
dpi))` with the flag cleared. -/
def charBox (L : Fitz) (ctx : fz_context) (dpi : QSizeF) (sc : fz_stext_span × Nat) :
    TextBox :=
  TextBox.new (QChar.ofInt (charCode sc)) (charRect L ctx dpi sc)

/-- The end-of-line flags of a line of `n` characters: set exactly at the last position. -/
def lineEndFlags (n : Nat) : List Bool :=
  (List.range n).map (fun k => decide (k + 1 = n))

/-- The boxes of one line: one per character, in order, flagged exactly at the last
character of the line. -/
def lineBoxes (L : Fitz) (ctx : fz_context) (dpi : QSizeF) (line : fz_stext_line) :
    List TextBox :=
  List.zipWith (fun sc e => (⟨QChar.ofInt (charCode sc), charRect L ctx dpi sc, e⟩ : TextBox))
    (lineChars line) (lineEndFlags (lineChars line).length)

/-! ## Lifetime of the library page handle -/

/-- A call into the library that acquires or releases a page handle. -/
inductive LibCall where
  | fz_load_page (ctx : fz_context) (doc : fz_document) (num : Int) (result : fz_page)
  | fz_drop_page (ctx : fz_context) (page : fz_page)
deriving DecidableEq

/-- The constructor `Page::Page(fz_context_s *ctx, fz_document_s *doc, int num)`: the new
object and the log of library calls extended by the call it makes. -/
def Page.create (L : Fitz) (ctx : fz_context) (doc : fz_document) (num : Int)
    (log : List LibCall) : Page × List LibCall :=
  let page := L.fz_load_page ctx doc num
  (⟨{ pageNum := num, ctx := ctx, doc := doc, page := page }⟩,
    log ++ [LibCall.fz_load_page ctx doc num page])

/-- The copy constructor `Page::Page(const Page &other)`: the new object shares the block
of `other`; no library call is made. -/
def Page.copy (other : Page) (log : List LibCall) : Page × List LibCall :=
  (⟨other.d⟩, log)

/-- The destructor `Page::~Page()`: the log extended by the call it makes. -/
def Page.destroy (p : Page) (log : List LibCall) : List LibCall :=
  log ++ [LibCall.fz_drop_page p.d.ctx p.d.page]

/-- Copy-construct `n` objects from `p`, one after the other. -/
def copyTimes (p : Page) : Nat → List LibCall → List Page × List LibCall
  | 0, log => ([], log)
  | n + 1, log =>
    let c := p.copy log
    let r := copyTimes p n c.2
    (c.1 :: r.1, r.2)

/-- Destroy every object of a list, one after the other. -/
def destroyAll : List Page → List LibCall → List LibCall
  | [], log => log
  | p :: rest, log => destroyAll rest (p.destroy log)

/-- Construct one `Page` from `(ctx, doc, num)`, make `n` copies of it, destroy all
`n + 1` objects, starting from an empty log: the constructed object and the final log. -/
def lifecycle (L : Fitz) (ctx : fz_context) (doc : fz_document) (num : Int) (n : Nat) :
    Page × List LibCall :=
  let c := Page.create L ctx doc num []
  let r := copyTimes c.1 n c.2
  (c.1, destroyAll (c.1 :: r.1) r.2)

/-- The number of acquisitions of handle `h` in a log: `fz_load_page` calls returning it. -/
def acquisitions (log : List LibCall) (h : fz_page) : Nat :=
  log.countP (fun e => match e with
    | .fz_load_page _ _ _ r => decide (r = h)
    | .fz_drop_page _ _ => false)

/-- The number of `fz_drop_page` calls on handle `h` in a log. -/
def drops (log : List LibCall) (h : fz_page) : Nat :=
  log.countP (fun e => match e with
    | .fz_load_page _ _ _ _ => false
    | .fz_drop_page _ pg => decide (pg = h))

/-! ## Concrete inputs -/

/-- A text page with an image block and a text block of three lines: a line of two spans
("ab", "c"), a line whose only span is empty, and a line with one character outside the
16-bit range. -/
def sampleTextPage : fz_stext_page :=
  ⟨[.image,
    .text ⟨[⟨[⟨[⟨97⟩, ⟨98⟩], ⟨0, 0, 20, 10⟩⟩, ⟨[⟨99⟩], ⟨20, 0, 30, 10⟩⟩]⟩,
            ⟨[⟨[], ⟨0, 10, 0, 20⟩⟩]⟩,
            ⟨[⟨[⟨0x1F600⟩], ⟨0, 20, 10, 30⟩⟩]⟩]⟩]⟩

/-- A 2-by-1 pixmap: an opaque red pixel and a half-transparent blue pixel. -/
def samplePixmap : fz_pixmap := ⟨2, 1, [255, 0, 0, 255, 0, 0, 255, 128]⟩

/-- A library whose runs report `errors` in the cookie: the page is 612 by 792 points,
drawing yields `samplePixmap`, text extraction yields `sampleTextPage`, and the character
at index `i` of a span occupies the `i`-th tenth-of-an-inch column of the span's box. -/
def sampleFitz (errors : Int) : Fitz where
  fz_load_page := fun _ _ num => num.toNat + 1
  fz_bound_page := fun _ _ => ⟨0, 0, 612, 792⟩
  fz_scale := fun sx sy => ⟨sx, 0, 0, sy, 0, 0⟩
  fz_device_rgb := fun _ => 1
  fz_new_pixmap := fun _ _ w h => ⟨w.toNat, h.toNat, List.replicate (4 * w.toNat * h.toNat) 0⟩
  fz_clear_pixmap_with_value := fun _ pm v =>
    ⟨pm.w, pm.h, List.replicate pm.samples.length (v % 256).toNat⟩
  fz_run_page_draw := fun _ _ _ _ => (samplePixmap, errors)
  fz_run_page_stext := fun _ _ _ => (sampleTextPage, errors)
  fz_stext_char_bbox := fun _ s i =>
    ⟨s.bbox.x0 + 10 * i, s.bbox.y0, s.bbox.x0 + 10 * (i + 1), s.bbox.y1⟩

/-- The library `sampleFitz 0` with the bounds of every page replaced by `r`. -/
def fitzWithBounds (r : fz_rect) : Fitz :=
  { sampleFitz 0 with fz_bound_page := fun _ _ => r }

/-- A page object for page number 0 of document 1 in context 1. -/
def samplePage : Page := ⟨{ pageNum := 0, ctx := 1, doc := 1, page := 1 }⟩

/-! # Theorems -/

/-! ## Geometry -/

theorem convert_fz_rect_edges (rect : fz_rect) (dpi : QSizeF) :
    (convert_fz_rect rect dpi).left = rect.x0 * dpi.width / 72 ∧
    (convert_fz_rect rect dpi).top = rect.y0 * dpi.width / 72 ∧
    (convert_fz_rect rect dpi).right = rect.x1 * dpi.height / 72 ∧
    (convert_fz_rect rect dpi).bottom = rect.y1 * dpi.height / 72 := by
  simp [convert_fz_rect, QRectF.ofPoints, QPointF.mul, QPointF.div, QRectF.left, QRectF.top,
    QRectF.right, QRectF.bottom]

/-- C5: at the rectangle (0, 72, 72, 144) and dpi (72, 144), `convert_fz_rect` scales the
top edge by the horizontal dpi and the right edge by the vertical dpi: top is 72 where
`y0 * dpi.height / 72` is 144, right is 144 where `x1 * dpi.width / 72` is 72, and the
width is 144 where `Page::size` gives `(x1 - x0) * dpi.width / 72`, which is 72. -/
theorem convert_fz_rect_swaps_dpi_axes :
    (convert_fz_rect ⟨0, 72, 72, 144⟩ ⟨72, 144⟩).top = 72 ∧
    (72 : ℚ) * 144 / 72 = 144 ∧
    (convert_fz_rect ⟨0, 72, 72, 144⟩ ⟨72, 144⟩).right = 144 ∧
    (72 : ℚ) * 72 / 72 = 72 ∧
    (convert_fz_rect ⟨0, 72, 72, 144⟩ ⟨72, 144⟩).width = 144 ∧
    (Page.size (fitzWithBounds ⟨0, 72, 72, 144⟩) samplePage ⟨72, 144⟩).width = 72 := by
  simp [convert_fz_rect, QRectF.ofPoints, QPointF.mul, QPointF.div, QRectF.top, QRectF.right,
    QRectF.width, Page.size, fitzWithBounds]

/-- C6: `Page::size` is `((x1 - x0) * dpi.width / 72, (y1 - y0) * dpi.height / 72)` for the
library bounds `(x0, y0, x1, y1)`; it is linear in the dpi, each component is linear in the
corresponding extent of the page, and at dpi (72, 72) it is the library's extents. -/
theorem Page.size_linear (L : Fitz) (p : Page) :
    (∀ dpi : QSizeF, p.size L dpi =
      ⟨((L.fz_bound_page p.d.ctx p.d.page).x1 - (L.fz_bound_page p.d.ctx p.d.page).x0)
          * dpi.width / 72,
        ((L.fz_bound_page p.d.ctx p.d.page).y1 - (L.fz_bound_page p.d.ctx p.d.page).y0)
          * dpi.height / 72⟩) ∧
    (∀ (a b : ℚ) (d1 d2 : QSizeF),
      p.size L ⟨a * d1.width + b * d2.width, a * d1.height + b * d2.height⟩ =
        ⟨a * (p.size L d1).width + b * (p.size L d2).width,
          a * (p.size L d1).height + b * (p.size L d2).height⟩) ∧
    (∀ (L1 L2 : Fitz) (p1 p2 : Page) (a b : ℚ) (dpi : QSizeF),
      ((L.fz_bound_page p.d.ctx p.d.page).x1 - (L.fz_bound_page p.d.ctx p.d.page).x0 =
          a * ((L1.fz_bound_page p1.d.ctx p1.d.page).x1 - (L1.fz_bound_page p1.d.ctx p1.d.page).x0)
          + b * ((L2.fz_bound_page p2.d.ctx p2.d.page).x1
            - (L2.fz_bound_page p2.d.ctx p2.d.page).x0) →
        (p.size L dpi).width = a * (p1.size L1 dpi).width + b * (p2.size L2 dpi).width) ∧
      ((L.fz_bound_page p.d.ctx p.d.page).y1 - (L.fz_bound_page p.d.ctx p.d.page).y0 =
          a * ((L1.fz_bound_page p1.d.ctx p1.d.page).y1 - (L1.fz_bound_page p1.d.ctx p1.d.page).y0)
          + b * ((L2.fz_bound_page p2.d.ctx p2.d.page).y1
            - (L2.fz_bound_page p2.d.ctx p2.d.page).y0) →
        (p.size L dpi).height = a * (p1.size L1 dpi).height + b * (p2.size L2 dpi).height)) ∧
    p.size L ⟨72, 72⟩ =
      ⟨(L.fz_bound_page p.d.ctx p.d.page).x1 - (L.fz_bound_page p.d.ctx p.d.page).x0,
        (L.fz_bound_page p.d.ctx p.d.page).y1 - (L.fz_bound_page p.d.ctx p.d.page).y0⟩ := by
  refine ⟨fun dpi => rfl, ?_, ?_, ?_⟩
  · intro a b d1 d2
    simp only [Page.size, QSizeF.mk.injEq]
    constructor <;> ring
  · intro L1 L2 p1 p2 a b dpi
    simp only [Page.size]
    constructor
    · intro h
      rw [h]
      ring
    · intro h
      rw [h]
      ring
  · simp [Page.size]

/-- Witness for C6 on the 612 by 792 point page: the extents of the page are once its own
extents plus zero times them, and the size at dpi (96, 96) follows. -/
theorem Page.size_linear_witness :
    (Page.size (sampleFitz 0) samplePage ⟨96, 96⟩).width =
        1 * (Page.size (sampleFitz 0) samplePage ⟨96, 96⟩).width
        + 0 * (Page.size (sampleFitz 0) samplePage ⟨96, 96⟩).width ∧
    Page.size (sampleFitz 0) samplePage ⟨72, 72⟩ = ⟨612, 792⟩ :=
  ⟨((Page.size_linear (sampleFitz 0) samplePage).2.2.1 (sampleFitz 0) (sampleFitz 0)
      samplePage samplePage 1 0 ⟨96, 96⟩).1 (by simp),
    by simpa [sampleFitz] using (Page.size_linear (sampleFitz 0) samplePage).2.2.2⟩

/-! ## `TextBox` -/

theorem TextBoxOp.apply_fields (op : TextBoxOp) (b : TextBox) :
    (op.apply b).text = b.text ∧ (op.apply b).rect = b.rect ∧
    (op.apply b).isAtEndOfLine = (b.isAtEndOfLine || decide (op = .markAtEndOfLine)) := by
  cases op <;>
    simp [TextBoxOp.apply, TextBox.markAtEndOfLine, TextBox.text, TextBox.rect,
      TextBox.isAtEndOfLine]

/-- C9, as stated, fails: `markAtEndOfLine` on a freshly constructed text box changes the
end-of-line flag from its value right after construction. -/
theorem TextBox.not_immutable :
    ¬ ∀ (op : TextBoxOp) (c : QChar) (bbox : QRectF),
      ((op.apply (TextBox.new c bbox)).text = (TextBox.new c bbox).text ∧
       (op.apply (TextBox.new c bbox)).rect = (TextBox.new c bbox).rect ∧
       (op.apply (TextBox.new c bbox)).isAtEndOfLine = (TextBox.new c bbox).isAtEndOfLine) := by
  intro h
  have h3 := (h .markAtEndOfLine ⟨97⟩ ⟨0, 0, 10, 10⟩).2.2
  simp [TextBoxOp.apply, TextBox.markAtEndOfLine, TextBox.new, TextBox.isAtEndOfLine] at h3

/-- C9, amended: after any sequence of calls of the public members on a text box
constructed from `c` and `bbox`, the character is `c` and the rectangle is `bbox`; the
end-of-line flag is set exactly when `markAtEndOfLine` is among the calls, so `rect`, `text`
and `isAtEndOfLine` leave all three fields as they were and `markAtEndOfLine` only sets
the flag. -/
theorem TextBox.fields_after_ops (ops : List TextBoxOp) (c : QChar) (bbox : QRectF) :
    (ops.foldl (fun b op => op.apply b) (TextBox.new c bbox)).text = c ∧
    (ops.foldl (fun b op => op.apply b) (TextBox.new c bbox)).rect = bbox ∧
    (ops.foldl (fun b op => op.apply b) (TextBox.new c bbox)).isAtEndOfLine =
      decide (TextBoxOp.markAtEndOfLine ∈ ops) := by
  have key : ∀ (l : List TextBoxOp) (b : TextBox),
      (l.foldl (fun b op => op.apply b) b).text = b.text ∧
      (l.foldl (fun b op => op.apply b) b).rect = b.rect ∧
      (l.foldl (fun b op => op.apply b) b).isAtEndOfLine =
        (b.isAtEndOfLine || decide (TextBoxOp.markAtEndOfLine ∈ l)) := by
    intro l
    induction l with
    | nil => intro b; simp
    | cons op rest ih =>
      intro b
      obtain ⟨h1, h2, h3⟩ := ih (op.apply b)
      obtain ⟨g1, g2, g3⟩ := TextBoxOp.apply_fields op b
      refine ⟨by simpa [g1] using h1, by simpa [g2] using h2, ?_⟩
      rw [List.foldl_cons, h3, g3]
      cases op <;> cases b.isAtEndOfLine <;> simp
  simpa [TextBox.new, TextBox.text, TextBox.rect, TextBox.isAtEndOfLine] using
    key ops (TextBox.new c bbox)

/-! ## Lifetime of the page handle -/

theorem copyTimes_log (p : Page) (n : Nat) (log : List LibCall) :
    (copyTimes p n log).2 = log ∧ (copyTimes p n log).1 = List.replicate n p := by
  induction n generalizing log with
  | zero => simp [copyTimes]
  | succ k ih =>
    simp only [copyTimes, Page.copy]
    exact ⟨(ih log).1, by rw [(ih log).2]; rfl⟩

theorem destroyAll_replicate (p : Page) (n : Nat) (log : List LibCall) :
    destroyAll (List.replicate n p) log =
      log ++ List.replicate n (LibCall.fz_drop_page p.d.ctx p.d.page) := by
  induction n generalizing log with
  | zero => simp [destroyAll]
  | succ k ih =>
    simp only [List.replicate_succ, destroyAll, Page.destroy]
    rw [ih]
    simp

theorem lifecycle_counts (L : Fitz) (ctx : fz_context) (doc : fz_document) (num : Int)
    (n : Nat) :
    (lifecycle L ctx doc num n).1.d.page = L.fz_load_page ctx doc num ∧
    acquisitions (lifecycle L ctx doc num n).2 (L.fz_load_page ctx doc num) = 1 ∧
    drops (lifecycle L ctx doc num n).2 (L.fz_load_page ctx doc num) = n + 1 := by
  have hd := destroyAll_replicate (Page.create L ctx doc num []).1 (n + 1)
    (Page.create L ctx doc num []).2
  rw [List.replicate_succ] at hd
  simp only [lifecycle, (copyTimes_log _ n _).1, (copyTimes_log _ n _).2, hd]
  simp [Page.create, acquisitions, drops, List.countP_append, List.countP_replicate,
    List.countP_cons]

/-- C7: constructing one `Page`, copying it once and destroying both objects acquires the
page handle once (`fz_load_page`) and drops it twice (`fz_drop_page`, once from each
destructor), so the drops do not match the single acquisition. -/
theorem lifecycle_one_copy_drops_twice :
    acquisitions (lifecycle (sampleFitz 0) 1 1 0 1).2 (lifecycle (sampleFitz 0) 1 1 0 1).1.d.page
      = 1 ∧
    drops (lifecycle (sampleFitz 0) 1 1 0 1).2 (lifecycle (sampleFitz 0) 1 1 0 1).1.d.page
      = 2 := by
  decide

/-! ## The error cookie -/

/-- C1: `Page::render` returns the null image and reads no sample of the pixmap when the
run-page call leaves a nonzero error count, and returns the conversion of the drawn pixmap
when the error count is zero. -/
theorem Page.render_checks_cookie (L : Fitz) (p : Page) (width height : ℚ) :
    ((p.drawRun L width height).2 ≠ 0 → p.render L width height = (QImage.null, [])) ∧
    ((p.drawRun L width height).2 = 0 →
      p.render L width height = convert_fz_pixmap (p.drawRun L width height).1) := by
  constructor
  · intro h
    unfold Page.drawRun at h
    simp only [Page.render]
    rw [if_neg h]
  · intro h
    unfold Page.drawRun at h
    simp only [Page.render]
    rw [if_pos h]
    rfl

/-- Witness for C1: with 3 errors in the cookie the result is the null image and nothing is
read; with none the sample pixmap is converted. -/
theorem Page.render_checks_cookie_witness :
    ((samplePage.drawRun (sampleFitz 3) 2 1).2 ≠ 0 ∧
      samplePage.render (sampleFitz 3) 2 1 = (QImage.null, [])) ∧
    ((samplePage.drawRun (sampleFitz 0) 2 1).2 = 0 ∧
      samplePage.render (sampleFitz 0) 2 1 =
        convert_fz_pixmap (samplePage.drawRun (sampleFitz 0) 2 1).1) :=
  ⟨⟨by decide, (Page.render_checks_cookie (sampleFitz 3) samplePage 2 1).1 (by decide)⟩,
    ⟨by decide, (Page.render_checks_cookie (sampleFitz 0) samplePage 2 1).2 (by decide)⟩⟩

/-- C2: `Page::textBoxes` returns the empty collection when the run-page call leaves a
nonzero error count, whatever the text page holds. -/
theorem Page.textBoxes_empty_on_error (L : Fitz) (p : Page) (dpi : QSizeF)
    (h : (p.stextRun L).2 ≠ 0) : p.textBoxes L dpi = some [] := by
  unfold Page.stextRun at h
  simp only [Page.textBoxes]
  rw [if_pos h]

/-- Witness for C2: the sample library with 3 errors in the cookie and a text page of four
characters. -/
theorem Page.textBoxes_empty_on_error_witness :
    (samplePage.stextRun (sampleFitz 3)).2 ≠ 0 ∧
    samplePage.textBoxes (sampleFitz 3) ⟨72, 72⟩ = some [] :=
  ⟨by decide, Page.textBoxes_empty_on_error (sampleFitz 3) samplePage ⟨72, 72⟩ (by decide)⟩

/-! ## `convert_fz_pixmap` -/

theorem charLoop_eq (L : Fitz) (ctx : fz_context) (dpi : QSizeF) (s : fz_stext_span)
    (n i : Nat) (st : List TextBox × Bool) :
    charLoop L ctx dpi s n i st =
      (st.1 ++ (List.range' i n).map (fun k => charBox L ctx dpi (s, k)),
        st.2 || decide (0 < n)) := by
  induction n generalizing i st with
  | zero => simp [charLoop]
  | succ k ih =>
    simp only [charLoop, ih, List.range'_succ]
    simp [charBox, charCode, charRect]

theorem spanLoop_eq (L : Fitz) (ctx : fz_context) (dpi : QSizeF)
    (spans : List fz_stext_span) (st : List TextBox × Bool) :
    spanLoop L ctx dpi spans st =
      (st.1 ++ (spans.flatMap spanChars).map (charBox L ctx dpi),
        st.2 || decide (0 < (spans.flatMap spanChars).length)) := by
  induction spans generalizing st with
  | nil => simp [spanLoop]
  | cons s rest ih =>
    simp only [spanLoop, ih, charLoop_eq, List.flatMap_cons, List.map_append,
      List.length_append]
    have hs : (List.range' 0 s.len).map (fun k => charBox L ctx dpi (s, k)) =
        (spanChars s).map (charBox L ctx dpi) := by
      simp [spanChars, List.range_eq_range']
    have hl : (spanChars s).length = s.len := by simp [spanChars]
    rw [hs, hl]
    refine Prod.ext (by simp) ?_
    cases st.2 <;> by_cases h1 : 0 < s.len <;>
      by_cases h2 : 0 < (rest.flatMap spanChars).length <;> simp [h1, h2]

theorem markBack_concat (xs : List TextBox) (y : TextBox) :
    markBack (xs ++ [y]) = some (xs ++ [y.markAtEndOfLine]) := by
  have key : ∀ (l : List TextBox) (h : l ≠ []),
      markBack l = some (l.dropLast ++ [(l.getLast h).markAtEndOfLine]) := by
    intro l h
    cases l with
    | nil => exact absurd rfl h
    | cons b bs => rfl
  rw [key (xs ++ [y]) (by simp)]
  simp

theorem lineEndFlags_succ (n : Nat) :
    lineEndFlags (n + 1) = List.replicate n false ++ [true] := by
  simp only [lineEndFlags, List.range_succ, List.map_append, List.map_cons, List.map_nil,
    decide_True]
  congr 1
  rw [List.eq_replicate_iff]
  refine ⟨by simp, ?_⟩
  intro b hb
  obtain ⟨k, hk, rfl⟩ := List.mem_map.1 hb
  have : k < n := List.mem_range.1 hk
  simp
  omega

theorem zipWith_replicate_false (L : Fitz) (ctx : fz_context) (dpi : QSizeF)
    (cs : List (fz_stext_span × Nat)) :
    List.zipWith
      (fun sc e => (⟨QChar.ofInt (charCode sc), charRect L ctx dpi sc, e⟩ : TextBox))
      cs (List.replicate cs.length false) = cs.map (charBox L ctx dpi) := by
  induction cs with
  | nil => simp
  | cons c rest ih =>
    simp only [List.length_cons, List.replicate_succ, List.zipWith_cons_cons, List.map_cons, ih]
    rfl

theorem lineBody_eq (L : Fitz) (ctx : fz_context) (dpi : QSizeF) (line : fz_stext_line)
    (boxes : List TextBox) :
    lineBody L ctx dpi line boxes = some (boxes ++ lineBoxes L ctx dpi line) := by
  simp only [lineBody, spanLoop_eq, lineBoxes]
  rcases List.eq_nil_or_concat (lineChars line) with h | ⟨cs, c, h⟩
  · have h0 : line.spans.flatMap spanChars = [] := h
    simp [h, h0]
  · have h0 : line.spans.flatMap spanChars = cs ++ [c] := by
      rw [← List.concat_eq_append]; exact h
    rw [List.concat_eq_append] at h
    simp only [h, h0, List.length_append, List.length_singleton, lineEndFlags_succ]
    rw [List.zipWith_append _ _ _ _ _ (by simp), zipWith_replicate_false]
    simp only [Bool.false_or, Nat.lt_add_left_iff_pos, Nat.lt_one_iff, pos_of_gt, decide_True,
      if_true, List.map_append, List.map_cons, List.map_nil, List.zipWith_cons_cons,
      List.zipWith_nil_left]
    rw [← List.append_assoc, markBack_concat]
    simp [charBox, TextBox.new, TextBox.markAtEndOfLine]

theorem lineLoop_eq (L : Fitz) (ctx : fz_context) (dpi : QSizeF)
    (lines : List fz_stext_line) (boxes : List TextBox) :
    lineLoop L ctx dpi lines boxes = some (boxes ++ lines.flatMap (lineBoxes L ctx dpi)) := by
  induction lines generalizing boxes with
  | nil => simp [lineLoop]
  | cons line rest ih => simp [lineLoop, lineBody_eq, ih]

theorem blockLoop_eq (L : Fitz) (ctx : fz_context) (dpi : QSizeF)
    (blocks : List fz_page_block) (boxes : List TextBox) :
    blockLoop L ctx dpi blocks boxes =
      some (boxes ++ (blocks.flatMap blockLines).flatMap (lineBoxes L ctx dpi)) := by
  induction blocks generalizing boxes with
  | nil => simp [blockLoop]
  | cons b rest ih =>
    cases b with
    | image => simp [blockLoop, ih, blockLines]
    | text block => simp [blockLoop, lineLoop_eq, ih, blockLines]

theorem Page.textBoxes_eq (L : Fitz) (p : Page) (dpi : QSizeF) (h : (p.stextRun L).2 = 0) :
    p.textBoxes L dpi =
      some ((pageLines (p.stextRun L).1).flatMap (lineBoxes L p.d.ctx dpi)) := by
  unfold Page.stextRun at h
  simp only [Page.textBoxes, Page.stextRun, pageLines]
  rw [if_neg (by simpa using h), blockLoop_eq]
  simp

theorem pageChars_eq (page : fz_stext_page) :
    pageChars page = (pageLines page).flatMap lineChars := by
  simp only [pageChars, pageLines, lineChars, List.flatMap_assoc]
  rfl

theorem lineEndFlags_length (n : Nat) : (lineEndFlags n).length = n := by
  simp [lineEndFlags]

theorem lineBoxes_text_rect (L : Fitz) (ctx : fz_context) (dpi : QSizeF)
    (line : fz_stext_line) :
    (lineBoxes L ctx dpi line).map (fun b => (b.text, b.rect)) =
      (lineChars line).map (fun sc => (QChar.ofInt (charCode sc), charRect L ctx dpi sc)) := by
  have key : ∀ (cs : List (fz_stext_span × Nat)) (fl : List Bool), cs.length = fl.length →
      (List.zipWith
        (fun sc e => (⟨QChar.ofInt (charCode sc), charRect L ctx dpi sc, e⟩ : TextBox))
        cs fl).map (fun b => (b.text, b.rect)) =
      cs.map (fun sc => (QChar.ofInt (charCode sc), charRect L ctx dpi sc)) := by
    intro cs
    induction cs with
    | nil => intro fl _; simp
    | cons c rest ih =>
      intro fl hfl
      cases fl with
      | nil => simp at hfl
      | cons e es =>
        simp only [List.zipWith_cons_cons, List.map_cons, ih es (by simpa using hfl)]
        rfl
  exact key _ _ (lineEndFlags_length _).symm

theorem lineBoxes_flags (L : Fitz) (ctx : fz_context) (dpi : QSizeF) (line : fz_stext_line) :
    (lineBoxes L ctx dpi line).map (fun b => b.isAtEndOfLine) =
      lineEndFlags (lineChars line).length := by
  have key : ∀ (cs : List (fz_stext_span × Nat)) (fl : List Bool), cs.length = fl.length →
      (List.zipWith
        (fun sc e => (⟨QChar.ofInt (charCode sc), charRect L ctx dpi sc, e⟩ : TextBox))
        cs fl).map (fun b => b.isAtEndOfLine) = fl := by
    intro cs
    induction cs with
    | nil => intro fl hfl; cases fl with
      | nil => rfl
      | cons e es => simp at hfl
    | cons c rest ih =>
      intro fl hfl
      cases fl with
      | nil => simp at hfl
      | cons e es =>
        simp only [List.zipWith_cons_cons, List.map_cons, ih es (by simpa using hfl)]
        rfl
  exact key _ _ (lineEndFlags_length _).symm

theorem lineEndFlags_count (n : Nat) :
    (lineEndFlags n).countP (fun e => e) = if 0 < n then 1 else 0 := by
  cases n with
  | zero => simp [lineEndFlags]
  | succ k =>
    rw [lineEndFlags_succ, List.countP_append, List.countP_replicate]
    simp

theorem lineBoxes_count (L : Fitz) (ctx : fz_context) (dpi : QSizeF) (line : fz_stext_line) :
    (lineBoxes L ctx dpi line).countP (fun b => b.isAtEndOfLine) =
      if 0 < (lineChars line).length then 1 else 0 := by
  rw [← lineEndFlags_count, ← lineBoxes_flags L ctx dpi line, List.countP_map]
  rfl

theorem flatMap_lineBoxes_count (L : Fitz) (ctx : fz_context) (dpi : QSizeF)
    (lines : List fz_stext_line) :
    (lines.flatMap (lineBoxes L ctx dpi)).countP (fun b => b.isAtEndOfLine) =
      lines.countP (fun l => decide (0 < (lineChars l).length)) := by
  induction lines with
  | nil => simp
  | cons l rest ih =>
    rw [List.flatMap_cons, List.countP_append, ih, lineBoxes_count, List.countP_cons]
    by_cases h : 0 < (lineChars l).length
    · simp [h]
      omega
    · simp [h]

theorem QChar.unicode_ofInt (c : Int) : ((QChar.ofInt c).unicode : Int) = c % 65536 := by
  simp only [QChar.ofInt, QChar.unicode]
  exact Int.toNat_of_nonneg (Int.emod_nonneg _ (by norm_num))

theorem flatMap_lineBoxes_text_rect (L : Fitz) (ctx : fz_context) (dpi : QSizeF)
    (page : fz_stext_page) :
    ((pageLines page).flatMap (lineBoxes L ctx dpi)).map (fun b => (b.text, b.rect)) =
      (pageChars page).map
        (fun sc => (QChar.ofInt (charCode sc), charRect L ctx dpi sc)) := by
  rw [pageChars_eq, List.map_flatMap, List.map_flatMap]
  simp only [lineBoxes_text_rect]

/-- C4: with a zero error count, the result of `Page::textBoxes` is, line after line of the
text blocks, the boxes of the characters of the line with the end-of-line flag set exactly
at the last character of the line; so the flagged boxes are as many as the lines that hold
at least one character, and on a line without characters the loop body leaves the boxes as
they are and does not fail. -/
theorem Page.textBoxes_end_of_line (L : Fitz) (p : Page) (dpi : QSizeF)
    (h : (p.stextRun L).2 = 0) :
    ∃ boxes : List TextBox, p.textBoxes L dpi = some boxes ∧
      boxes = (pageLines (p.stextRun L).1).flatMap (lineBoxes L p.d.ctx dpi) ∧
      boxes.map (fun b => b.isAtEndOfLine) =
        (pageLines (p.stextRun L).1).flatMap (fun l => lineEndFlags (lineChars l).length) ∧
      boxes.countP (fun b => b.isAtEndOfLine) =
        (pageLines (p.stextRun L).1).countP (fun l => decide (0 < (lineChars l).length)) ∧
      ∀ (line : fz_stext_line) (bs : List TextBox), (lineChars line).length = 0 →
        lineBody L p.d.ctx dpi line bs = some bs := by
  refine ⟨_, Page.textBoxes_eq L p dpi h, rfl, ?_, ?_, ?_⟩
  · rw [List.map_flatMap]
    simp only [lineBoxes_flags]
  · exact flatMap_lineBoxes_count L p.d.ctx dpi _
  · intro line bs hl
    rw [lineBody_eq]
    have : lineChars line = [] := List.length_eq_zero.1 hl
    simp [lineBoxes, this]

/-- Witness for C4: the sample text page, whose second line has a single span of length 0,
with no error in the cookie. -/
theorem Page.textBoxes_end_of_line_witness :
    (samplePage.stextRun (sampleFitz 0)).2 = 0 ∧
    ∃ boxes : List TextBox, samplePage.textBoxes (sampleFitz 0) ⟨72, 72⟩ = some boxes ∧
      boxes.map (fun b => b.isAtEndOfLine) = [false, false, true, true] ∧
      boxes.countP (fun b => b.isAtEndOfLine) = 2 := by
  refine ⟨by decide, ?_⟩
  obtain ⟨boxes, h1, _, h3, h4, _⟩ :=
    Page.textBoxes_end_of_line (sampleFitz 0) samplePage ⟨72, 72⟩ (by decide)
  exact ⟨boxes, h1, by rw [h3]; decide, by rw [h4]; decide⟩

/-- C8, as stated, fails: on the sample text page the fourth character has the code
0x1F600, and the fourth text box holds 0xF600. -/
theorem Page.textBoxes_code_not_preserved :
    ¬ ∀ (L : Fitz) (p : Page) (dpi : QSizeF) (boxes : List TextBox),
      (p.stextRun L).2 = 0 → p.textBoxes L dpi = some boxes →
      ∀ (k : Nat) (c : Int),
        ((pageChars (p.stextRun L).1).map (fun sc => (sc.1.text.getD sc.2 ⟨0⟩).c))[k]? = some c →
        0 ≤ c → (boxes.map (fun b => (b.text.unicode : Int)))[k]? = some c := by
  intro hall
  have hrun : (samplePage.stextRun (sampleFitz 0)).2 = 0 := by decide
  have h := hall (sampleFitz 0) samplePage ⟨72, 72⟩ _ hrun
    (Page.textBoxes_eq (sampleFitz 0) samplePage ⟨72, 72⟩ hrun) 3 0x1F600 (by decide)
    (by decide)
  exact absurd h (by decide)

/-- C8, amended: with a zero error count, the numeric value of `text()` of the `k`-th text
box is the code of the `k`-th character reduced modulo 2^16; it is the code itself when the
code lies between 0 and 0xFFFF. -/
theorem Page.textBoxes_code_mod (L : Fitz) (p : Page) (dpi : QSizeF)
    (h : (p.stextRun L).2 = 0) :
    ∃ boxes : List TextBox, p.textBoxes L dpi = some boxes ∧
      boxes.map (fun b => (b.text.unicode : Int)) =
        (pageChars (p.stextRun L).1).map (fun sc => (sc.1.text.getD sc.2 ⟨0⟩).c % 65536) ∧
      ∀ (k : Nat) (c : Int),
        ((pageChars (p.stextRun L).1).map (fun sc => (sc.1.text.getD sc.2 ⟨0⟩).c))[k]? = some c →
        0 ≤ c → c < 65536 → (boxes.map (fun b => (b.text.unicode : Int)))[k]? = some c := by
  have hmap : ((pageLines (p.stextRun L).1).flatMap (lineBoxes L p.d.ctx dpi)).map
      (fun b => (b.text.unicode : Int)) =
      (pageChars (p.stextRun L).1).map (fun sc => (sc.1.text.getD sc.2 ⟨0⟩).c % 65536) := by
    have e := congrArg (List.map (fun q : QChar × QRectF => (q.1.unicode : Int)))
      (flatMap_lineBoxes_text_rect L p.d.ctx dpi (p.stextRun L).1)
    simp only [List.map_map, Function.comp_def, QChar.unicode_ofInt] at e
    exact e
  refine ⟨_, Page.textBoxes_eq L p dpi h, hmap, ?_⟩
  intro k c hk h0 h1
  rw [hmap]
  rw [List.getElem?_map] at hk ⊢
  cases hsc : (pageChars (p.stextRun L).1)[k]? with
  | none => simp [hsc] at hk
  | some sc =>
    simp only [hsc, Option.map_some', Option.some.injEq] at hk ⊢
    rw [hk]
    exact Int.emod_eq_of_lt h0 h1

/-- Witness for C8: the sample text page with no error in the cookie; its first character
has the code 97 and the first box holds 97. -/
theorem Page.textBoxes_code_mod_witness :
    (samplePage.stextRun (sampleFitz 0)).2 = 0 ∧
    ∃ boxes : List TextBox, samplePage.textBoxes (sampleFitz 0) ⟨72, 72⟩ = some boxes ∧
      boxes.map (fun b => (b.text.unicode : Int)) = [97, 98, 99, 0xF600] ∧
      (boxes.map (fun b => (b.text.unicode : Int)))[0]? = some 97 := by
  refine ⟨by decide, ?_⟩
  obtain ⟨boxes, h1, h2, h3⟩ :=
    Page.textBoxes_code_mod (sampleFitz 0) samplePage ⟨72, 72⟩ (by decide)
  exact ⟨boxes, h1, by rw [h2]; decide, h3 0 97 (by decide) (by decide) (by decide)⟩

end QMuPDF
